import Mathlib

/-!
Verification of the incremental-extraction and merge-dedup engine of
`infinity_scrool.py` (class `JustDialScraper` plus the module-level helpers
`generate_filename_from_url` and `main`).

The Python code is shallowly embedded:
* a scraped row is the record dictionary built in `extract_business_data`
  (keys `datestamp`, `name`, `address`; the code keeps no other column);
* pandas dataframe pipelines become list pipelines;
* the on-disk dataset is an `Option (List Rec)` (`none` models a missing,
  empty or unparseable file, which `save_to_csv` treats as "no prior data");
* Python `str.strip` is modelled on `List Char` (`pyStrip`), avoiding any
  dependence on Lean's own `String.trim`.

`sort_values` in pandas uses an unstable quicksort, so the relative order of
rows that compare equal on the sort key is unspecified by the code.  The model
therefore fixes a deterministic tie-break (`recOrd` orders by name, then
datestamp, then address) for the final `sort_values(by='name')`; every theorem
below about surviving rows is insensitive to this choice, because the
deduplication key `(name, address)` together with the datestamp determines a
row completely.
-/

/-- A scraped business record, as built by `extract_business_data`
(`datestamp`, `name`, `address`; lines 167-174 of the source). -/
structure Rec where
  datestamp : String
  name : String
  address : String
deriving DecidableEq

/-- Python `str.strip` on a list of characters: drop the characters
satisfying `p` from both ends. -/
def stripEndWhile (p : Char → Bool) : List Char → List Char
  | [] => []
  | c :: r =>
    match stripEndWhile p r with
    | [] => if p c then [] else [c]
    | s => c :: s

/-- Both-ends strip by a character predicate (Python `str.strip`). -/
def pyStripWith (p : Char → Bool) (l : List Char) : List Char :=
  stripEndWhile p (l.dropWhile p)

/-- Python `s.strip()` (whitespace strip) on strings. -/
def pyStrip (s : String) : String :=
  (pyStripWith Char.isWhitespace s.toList).asString

/-- Python `s.strip(c)` for a single strip character. -/
def pyStripChar (x : Char) (l : List Char) : List Char :=
  pyStripWith (fun c => c = x) l

/-- The deduplication key used by `drop_duplicates(subset=['name', 'address'])`
(line 376). -/
def identityKey (r : Rec) : String × String := (r.name, r.address)

/-- The append guard of the extraction loop (line 271):
`name` truthy, not `'N/A'`, and `name.strip()` truthy. -/
def isValid (r : Rec) : Bool :=
  r.name != "" && r.name != "N/A" && pyStrip r.name != ""

/-- The validity filter of the merge step (lines 370-372): keep rows whose
name strips to something non-empty and is not `'N/A'`.  (`notna` cannot fail
in the model: names are total strings.) -/
def mergeValid (r : Rec) : Bool :=
  pyStrip r.name != "" && r.name != "N/A"

/-- Python string comparison: lexicographic on the code-point sequence.
(Lean's own `String` order agrees but its decision procedure is opaque to the
kernel, so the model compares the underlying character lists.) -/
def strLe (a b : String) : Prop := a.data ≤ b.data

/-- Strict Python string comparison. -/
def strLt (a b : String) : Prop := a.data < b.data

instance : DecidableRel strLe := fun a b =>
  inferInstanceAs (Decidable (a.data ≤ b.data))

instance : DecidableRel strLt := fun a b =>
  inferInstanceAs (Decidable (a.data < b.data))

/-- `sort_values(by='datestamp', ascending=False)` (line 375): row `a` may
come before row `b` when its datestamp is at least `b`'s (string comparison,
which on ISO datestamps is date order). -/
def dateGe (a b : Rec) : Prop := strLe b.datestamp a.datestamp

instance : DecidableRel dateGe := fun a b =>
  inferInstanceAs (Decidable (strLe b.datestamp a.datestamp))

instance : IsTotal Rec dateGe := by
  refine ⟨fun a b => ?_⟩
  unfold dateGe strLe
  exact le_total b.datestamp.data a.datestamp.data

instance : IsTrans Rec dateGe := by
  refine ⟨fun a b c h₁ h₂ => ?_⟩
  unfold dateGe strLe at *
  exact le_trans h₂ h₁

/-- `sort_values(by='name')` (line 379), made deterministic: primary key is
the name; ties (which pandas' unstable quicksort leaves unspecified) are
broken by datestamp and then address. -/
def recOrd (a b : Rec) : Prop :=
  strLt a.name b.name ∨ (a.name = b.name ∧
    (strLt a.datestamp b.datestamp ∨ (a.datestamp = b.datestamp ∧ strLe a.address b.address)))

instance : DecidableRel recOrd := fun a b => by
  unfold recOrd; infer_instance

instance : IsTotal Rec recOrd := by
  refine ⟨fun a b => ?_⟩
  unfold recOrd strLt strLe
  rcases lt_trichotomy a.name.data b.name.data with h | h | h
  · exact Or.inl (Or.inl h)
  · have hn : a.name = b.name := String.ext h
    rcases lt_trichotomy a.datestamp.data b.datestamp.data with h' | h' | h'
    · exact Or.inl (Or.inr ⟨hn, Or.inl h'⟩)
    · have hd : a.datestamp = b.datestamp := String.ext h'
      rcases le_total a.address.data b.address.data with h'' | h''
      · exact Or.inl (Or.inr ⟨hn, Or.inr ⟨hd, h''⟩⟩)
      · exact Or.inr (Or.inr ⟨hn.symm, Or.inr ⟨hd.symm, h''⟩⟩)
    · exact Or.inr (Or.inr ⟨hn.symm, Or.inl h'⟩)
  · exact Or.inr (Or.inl h)

instance : IsTrans Rec recOrd := by
  refine ⟨fun a b c hab hbc => ?_⟩
  unfold recOrd strLt strLe at *
  rcases hab with h₁ | ⟨e₁, h₁⟩
  · rcases hbc with h₂ | ⟨e₂, _⟩
    · exact Or.inl (lt_trans h₁ h₂)
    · exact Or.inl (e₂ ▸ h₁)
  · rcases hbc with h₂ | ⟨e₂, h₂⟩
    · exact Or.inl (e₁ ▸ h₂)
    · refine Or.inr ⟨e₁.trans e₂, ?_⟩
      rcases h₁ with h₁ | ⟨d₁, h₁⟩
      · rcases h₂ with h₂ | ⟨d₂, _⟩
        · exact Or.inl (lt_trans h₁ h₂)
        · exact Or.inl (d₂ ▸ h₁)
      · rcases h₂ with h₂ | ⟨d₂, h₂⟩
        · exact Or.inl (d₁ ▸ h₂)
        · exact Or.inr ⟨d₁.trans d₂, le_trans h₁ h₂⟩

instance : IsAntisymm Rec recOrd := by
  refine ⟨fun a b hab hba => ?_⟩
  unfold recOrd strLt strLe at hab hba
  rcases hab with h₁ | ⟨e₁, h₁⟩
  · rcases hba with h₂ | ⟨e₂, _⟩
    · exact absurd (lt_trans h₁ h₂) (lt_irrefl _)
    · exact absurd (e₂ ▸ h₁) (lt_irrefl _)
  · rcases hba with h₂ | ⟨e₂, h₂⟩
    · exact absurd (e₁ ▸ h₂) (lt_irrefl _)
    · have hd : a.datestamp = b.datestamp := by
        rcases h₁ with h₁ | ⟨d₁, _⟩
        · rcases h₂ with h₂ | ⟨d₂, _⟩
          · exact absurd (lt_trans h₁ h₂) (lt_irrefl _)
          · exact absurd (d₂ ▸ h₁) (lt_irrefl _)
        · exact d₁
      have hd' : b.datestamp = a.datestamp := hd.symm
      have ha : a.address = b.address := by
        rcases h₁ with h₁ | ⟨_, h₁⟩
        · exact absurd (hd ▸ h₁) (lt_irrefl _)
        · rcases h₂ with h₂ | ⟨_, h₂⟩
          · exact absurd (hd' ▸ h₂) (lt_irrefl _)
          · exact String.ext (le_antisymm h₁ h₂)
      cases a; cases b
      simp_all

/-- `drop_duplicates(subset=['name', 'address'], keep='first')` (line 376):
scan the rows in order, keeping a row only when its identity key has not been
seen yet. -/
def dedupByKeyAux (seen : List (String × String)) : List Rec → List Rec
  | [] => []
  | r :: rs =>
    if identityKey r ∈ seen then dedupByKeyAux seen rs
    else r :: dedupByKeyAux (identityKey r :: seen) rs

/-- Keep the first row of each identity key. -/
def dedupByKey (l : List Rec) : List Rec := dedupByKeyAux [] l

/-- The in-memory merge pipeline of `save_to_csv` / `save_to_json`
(lines 369-382 resp. 401-407) applied to the combined row list:
filter invalid names, sort descending by datestamp, deduplicate by
`(name, address)` keeping the first (most recent) row, sort by name. -/
def mergeClean (l : List Rec) : List Rec :=
  List.insertionSort recOrd
    (dedupByKey (List.insertionSort dateGe (l.filter mergeValid)))

/-- Filesystem effect of one save call: resulting dataset plus the number of
dataset reads and writes the call performed. -/
structure FsEffect where
  file : Option (List Rec)
  reads : Nat
  writes : Nat
deriving DecidableEq

/-- `save_to_csv` (lines 342-385).  `existing` is the dataset currently at the
target path (`none` when the file is missing or unreadable, which the code
treats as "no prior data").  With an empty record list the function returns
before touching the file (lines 344-345); otherwise it reads the file once,
merges in memory and rewrites the whole file. -/
def save_to_csv_fx (existing : Option (List Rec)) (data : List Rec) : FsEffect :=
  if data = [] then ⟨existing, 0, 0⟩
  else ⟨some (mergeClean (existing.getD [] ++ data)), 1, 1⟩

/-- The dataset produced by `save_to_csv`. -/
def save_to_csv (existing : Option (List Rec)) (data : List Rec) : Option (List Rec) :=
  (save_to_csv_fx existing data).file

/-- `save_to_json` (lines 387-413): identical early return on empty data and
identical filter/sort/dedup/sort pipeline over the combined list. -/
def save_to_json_fx (existing : Option (List Rec)) (data : List Rec) : FsEffect :=
  if data = [] then ⟨existing, 0, 0⟩
  else ⟨some (mergeClean (existing.getD [] ++ data)), 1, 1⟩

/-- Column order enforced on the saved CSV
(`[['datestamp', 'name', 'address']]`, lines 349, 359 and 382). -/
def csvColumns : List String := ["datestamp", "name", "address"]

/-- Abstraction of the live page as seen by `scrape_single_batch`:
`obs n` is the list of records extracted from the listing nodes visible after
`n` scroll attempts, in document order; `grows n` is the result of scroll
attempt `n` (`scroll_to_load_more(max_scrolls=1)`, which performs one scroll
and reports whether the page height changed, lines 104-155). -/
structure PageDriver where
  obs : Nat → List Rec
  grows : Nat → Bool

/-- The `while scroll_count < max_scrolls` loop of `scrape_single_batch`
(lines 243-304).  Both continuing branches increment `scroll_count`, so the
loop runs at most `max_scrolls` iterations; `fuel` is initialised to
`max_scrolls`, making the recursion structural without changing the result.
Per iteration: query the nodes visible after `scroll_count` attempts, extract
the newly revealed slice `store[previous_count:]`, append the valid rows
(guard of line 271, with no cap on the batch length), then either keep
scrolling while under `min_scrolls`, or stop when `batch_size` is reached, or
stop when no new nodes appeared or the scroll reports no height growth. -/
def collectLoop (d : PageDriver) (batch_size min_scrolls max_scrolls : Nat) :
    Nat → List Rec → Nat → Nat → List Rec × Nat
  | 0, batch_data, _, scroll_count => (batch_data, scroll_count)
  | fuel + 1, batch_data, previous_count, scroll_count =>
    if scroll_count < max_scrolls then
      let store := d.obs scroll_count
      let current_count := store.length
      let batch' := batch_data ++ (store.drop previous_count).filter (fun r => isValid r)
      if scroll_count < min_scrolls then
        collectLoop d batch_size min_scrolls max_scrolls fuel batch' current_count
          (scroll_count + 1)
      else if batch_size ≤ batch'.length then
        (batch', scroll_count)
      else if current_count = previous_count ∨ d.grows scroll_count = false then
        (batch', scroll_count)
      else
        collectLoop d batch_size min_scrolls max_scrolls fuel batch' current_count
          (scroll_count + 1)
    else (batch_data, scroll_count)

/-- `scrape_single_batch` (lines 216-305): run the extraction loop from an
empty batch; returns the batch together with the number of scroll attempts
performed (the `scroll_count` reported at line 304). -/
def scrape_single_batch (d : PageDriver) (batch_size max_scrolls min_scrolls : Nat) :
    List Rec × Nat :=
  collectLoop d batch_size min_scrolls max_scrolls max_scrolls [] 0 0

/-- A valid record used by the concrete page drivers. -/
def recB : Rec := ⟨"2024-01-01", "B", "1 St"⟩

/-- A page driver that reveals ten new valid nodes per scroll step and whose
height always grows. -/
def tenPerStep : PageDriver :=
  ⟨fun n => List.replicate (10 * (n + 1)) recB, fun _ => true⟩

/-- A page driver whose page height never grows: every scroll attempt reports
no growth and the node list stays at its initial ten nodes. -/
def neverGrow : PageDriver :=
  ⟨fun _ => List.replicate 10 recB, fun _ => false⟩

/-- Outcome of the scraping phase inside `main`'s `try` block (lines 477-504):
either `scrape_justdial` returns normally with the collected records, or a
`KeyboardInterrupt` (caught at line 499) or another exception (caught at line
501) escapes it. -/
inductive RunEvent
  | completed
  | interrupted
  | failed
deriving DecidableEq

/-- Control flow of `main` (lines 477-504) for the default `--format csv`:
the saves run only when scraping returns normally; on interrupt or error the
handlers just `pass`, so the dataset is untouched and the collected records
are discarded; the `finally` block always releases the web driver.  Returns
the resulting dataset and whether the driver is still open. -/
def mainRun (fileState : Option (List Rec)) (collected : List Rec) (ev : RunEvent) :
    Option (List Rec) × Bool :=
  match ev with
  | RunEvent.completed => (save_to_csv fileState collected, false)
  | RunEvent.interrupted => (fileState, false)
  | RunEvent.failed => (fileState, false)

/-- Characters kept verbatim by `re.sub(r'[^a-zA-Z0-9-]', '-', ...)`
(line 444): ASCII letters, digits and the hyphen. -/
def isKeptChar (c : Char) : Bool := c.isAlpha || c.isDigit || c = '-'

/-- One character of the `re.sub(r'[^a-zA-Z0-9-]', '-', ...)` replacement. -/
def cleanChar (c : Char) : Char := if isKeptChar c then c else '-'

/-- `re.sub(r'-+', '-', ...)` (line 446): collapse each run of hyphens to a
single hyphen. -/
def collapseDash : List Char → List Char
  | [] => []
  | [c] => [c]
  | a :: b :: rest =>
    if a = '-' && b = '-' then collapseDash (b :: rest)
    else a :: collapseDash (b :: rest)

/-- Python `path.split('/')`: split on every slash, keeping empty segments. -/
def splitSlash : List Char → List (List Char)
  | [] => [[]]
  | c :: r =>
    if c = '/' then [] :: splitSlash r
    else
      match splitSlash r with
      | [] => [[c]]
      | s :: ss => (c :: s) :: ss

/-- The `'nct-'` marker of catalogue segments (line 437). -/
def nctTag : List Char := ['n', 'c', 't', '-']

/-- Segment filter of lines 435-438: keep non-empty segments that do not
start with `'nct-'`. -/
def keepSeg (p : List Char) : Bool := !p.isEmpty && !nctTag.isPrefixOf p

/-- The suffix of the URL after the first `'://'`, if any. -/
def afterSchemeMarker : List Char → Option (List Char)
  | [] => none
  | ':' :: '/' :: '/' :: rest => some rest
  | _ :: rest => afterSchemeMarker rest

/-- `urlparse(url).path` for the URLs this tool receives: when the URL has a
`'://'` scheme marker the authority runs to the next `'/'` and the path from
there; otherwise the whole string is the path; a query (`'?'`) or fragment
(`'#'`) terminates the path. -/
def urlPath (cs : List Char) : List Char :=
  let tail :=
    match afterSchemeMarker cs with
    | some r => r.dropWhile (fun c => c ≠ '/')
    | none => cs
  tail.takeWhile (fun c => c ≠ '?' && c ≠ '#')

/-- `generate_filename_from_url` (lines 419-451): strip slashes from the URL
path, split on `'/'`, drop empty and `'nct-'` segments, and if any segments
remain join them with `'-'`, replace characters outside `[a-zA-Z0-9-]` by
`'-'`, collapse hyphen runs and strip outer hyphens; otherwise fall back to
`'justdial_data'`. -/
def generate_filename_from_url (url : String) : String :=
  let path := pyStripChar '/' (urlPath url.toList)
  let parts := splitSlash path
  let relevant := parts.filter (fun p => keepSeg p)
  if relevant.isEmpty then "justdial_data"
  else
    (pyStripChar '-'
      (collapseDash ((List.intercalate ['-'] relevant).map cleanChar))).asString

/-- The identifier pipeline as the specification words it: split the URL path
on `'/'`, drop empty segments and segments matching `nct-*`, join the rest
with `'-'`, replace characters outside `[A-Za-z0-9-]` with `'-'`, collapse
repeated `'-'`, trim leading and trailing `'-'`, falling back to
`'justdial_data'` when no segment remains. -/
def specIdentifier (url : String) : String :=
  let segs := (splitSlash (urlPath url.toList)).filter (fun p => keepSeg p)
  if segs.isEmpty then "justdial_data"
  else
    (pyStripChar '-'
      (collapseDash ((List.intercalate ['-'] segs).map cleanChar))).asString

/-- A valid record named `A` (examples). -/
def recA : Rec := ⟨"2024-01-01", "A", "1 St"⟩

/-- A record with the sentinel name `N/A` (examples). -/
def recNA : Rec := ⟨"2024-01-01", "N/A", "2 St"⟩

/-- A record with a whitespace-only name (examples). -/
def recWS : Rec := ⟨"2024-01-01", "  ", "3 St"⟩

/-- The January observation of the most-recent-wins example. -/
def recJan : Rec := ⟨"2024-01-01", "X", "1 St, City"⟩

/-- The June observation of the most-recent-wins example (same identity
key as `recJan`, later datestamp). -/
def recJun : Rec := ⟨"2024-06-01", "X", "1 St, City"⟩

/-- The claim C3 example record whose address contains a comma-separated
city part. -/
def recPark : Rec := ⟨"2024-01-01", "A", "12 Park Ave, Bangalore"⟩

/-! ### Helper lemmas about the merge pipeline -/

theorem strLe_refl (a : String) : strLe a a := le_refl a.data

theorem strLe_trans {a b c : String} (h₁ : strLe a b) (h₂ : strLe b c) : strLe a c :=
  le_trans h₁ h₂

theorem strLe_antisymm {a b : String} (h₁ : strLe a b) (h₂ : strLe b a) : a = b :=
  String.ext (le_antisymm h₁ h₂)

theorem strLt_irrefl (a : String) : ¬ strLt a a := lt_irrefl a.data

theorem strLt.le {a b : String} (h : strLt a b) : strLe a b := le_of_lt h

theorem strLe_of_not_lt {a b : String} (h : ¬ strLt a b) : strLe b a := le_of_not_lt h

/-- Two rows with the same identity key and the same datestamp are the same
row: a record has no other fields. -/
theorem rec_eq_of_key_of_date {a b : Rec} (hk : identityKey a = identityKey b)
    (hd : a.datestamp = b.datestamp) : a = b := by
  unfold identityKey at hk
  have h₁ : a.name = b.name := congrArg Prod.fst hk
  have h₂ : a.address = b.address := congrArg Prod.snd hk
  cases a; cases b
  simp_all

theorem dedupByKeyAux_sublist (seen : List (String × String)) (l : List Rec) :
    List.Sublist (dedupByKeyAux seen l) l := by
  induction l generalizing seen with
  | nil => simp [dedupByKeyAux]
  | cons r rs ih =>
    by_cases h : identityKey r ∈ seen
    · simp only [dedupByKeyAux, if_pos h]
      exact (ih seen).cons r
    · simp only [dedupByKeyAux, if_neg h]
      exact (ih _).cons₂ r

theorem mem_of_mem_dedupByKeyAux {seen : List (String × String)} {l : List Rec} {b : Rec}
    (hb : b ∈ dedupByKeyAux seen l) : b ∈ l :=
  (dedupByKeyAux_sublist seen l).subset hb

theorem key_notin_of_mem_dedupByKeyAux {seen : List (String × String)} {l : List Rec}
    {b : Rec} (hb : b ∈ dedupByKeyAux seen l) : identityKey b ∉ seen := by
  induction l generalizing seen with
  | nil => simp [dedupByKeyAux] at hb
  | cons r rs ih =>
    by_cases h : identityKey r ∈ seen
    · rw [dedupByKeyAux, if_pos h] at hb
      exact ih hb
    · rw [dedupByKeyAux, if_neg h] at hb
      rcases List.mem_cons.1 hb with rfl | hb'
      · exact h
      · intro hmem
        exact ih hb' (List.mem_cons_of_mem _ hmem)

theorem pairwiseKey_dedupByKeyAux (seen : List (String × String)) (l : List Rec) :
    (dedupByKeyAux seen l).Pairwise (fun x y => identityKey x ≠ identityKey y) := by
  induction l generalizing seen with
  | nil => simp [dedupByKeyAux]
  | cons r rs ih =>
    by_cases h : identityKey r ∈ seen
    · rw [dedupByKeyAux, if_pos h]
      exact ih seen
    · rw [dedupByKeyAux, if_neg h]
      refine List.Pairwise.cons (fun y hy => ?_) (ih _)
      have := key_notin_of_mem_dedupByKeyAux hy
      intro he
      exact this (he ▸ List.mem_cons_self _ _)

/-- On a list sorted descending by datestamp, every surviving row carries the
maximal datestamp of its identity key. -/
theorem dedupByKeyAux_max {l : List Rec} (hs : List.Sorted dateGe l)
    {seen : List (String × String)} {b : Rec} (hb : b ∈ dedupByKeyAux seen l) :
    ∀ a ∈ l, identityKey a = identityKey b → strLe a.datestamp b.datestamp := by
  induction l generalizing seen with
  | nil => simp [dedupByKeyAux] at hb
  | cons r rs ih =>
    have hrel : ∀ x ∈ rs, dateGe r x := List.rel_of_sorted_cons hs
    have htail : List.Sorted dateGe rs := hs.of_cons
    by_cases h : identityKey r ∈ seen
    · rw [dedupByKeyAux, if_pos h] at hb
      intro a ha hk
      rcases List.mem_cons.1 ha with rfl | ha'
      · exact absurd (hk ▸ h) (key_notin_of_mem_dedupByKeyAux hb)
      · exact ih htail hb a ha' hk
    · rw [dedupByKeyAux, if_neg h] at hb
      rcases List.mem_cons.1 hb with rfl | hb'
      · intro a ha hk
        rcases List.mem_cons.1 ha with rfl | ha'
        · exact strLe_refl _
        · exact hrel a ha'
      · intro a ha hk
        rcases List.mem_cons.1 ha with rfl | ha'
        · have : identityKey b ∉ identityKey a :: seen :=
            key_notin_of_mem_dedupByKeyAux hb'
          exact absurd (hk ▸ List.mem_cons_self _ _) this
        · exact ih htail hb' a ha' hk

/-- Conversely, on a sorted list a row that carries the maximal datestamp of
its (unseen) identity key survives deduplication. -/
theorem dedupByKeyAux_complete {l : List Rec} (hs : List.Sorted dateGe l)
    {seen : List (String × String)} {b : Rec} (hb : b ∈ l)
    (hmax : ∀ a ∈ l, identityKey a = identityKey b → strLe a.datestamp b.datestamp)
    (hseen : identityKey b ∉ seen) : b ∈ dedupByKeyAux seen l := by
  induction l generalizing seen with
  | nil => simp at hb
  | cons r rs ih =>
    have hrel : ∀ x ∈ rs, dateGe r x := List.rel_of_sorted_cons hs
    have htail : List.Sorted dateGe rs := hs.of_cons
    rcases List.mem_cons.1 hb with rfl | hb'
    · rw [dedupByKeyAux, if_neg hseen]
      exact List.mem_cons_self _ _
    · by_cases h : identityKey r ∈ seen
      · rw [dedupByKeyAux, if_pos h]
        exact ih htail hb' (fun a ha hk => hmax a (List.mem_cons_of_mem _ ha) hk) hseen
      · rw [dedupByKeyAux, if_neg h]
        by_cases hk : identityKey b = identityKey r
        · have h₁ : strLe r.datestamp b.datestamp := hmax r (List.mem_cons_self _ _) hk.symm
          have h₂ : strLe b.datestamp r.datestamp := hrel b hb'
          have : b = r := rec_eq_of_key_of_date hk (strLe_antisymm h₂ h₁)
          exact this ▸ List.mem_cons_self _ _
        · refine List.mem_cons_of_mem _ ?_
          refine ih htail hb' (fun a ha hk' => hmax a (List.mem_cons_of_mem _ ha) hk') ?_
          intro hmem
          rcases List.mem_cons.1 hmem with he | hmem'
          · exact hk he
          · exact hseen hmem'

/-- Every key present in the input is represented in the deduplicated
output (unless it was already marked as seen). -/
theorem dedupByKeyAux_covers {l : List Rec} {seen : List (String × String)} {a : Rec}
    (ha : a ∈ l) :
    identityKey a ∈ seen ∨ ∃ b ∈ dedupByKeyAux seen l, identityKey b = identityKey a := by
  induction l generalizing seen with
  | nil => simp at ha
  | cons r rs ih =>
    by_cases h : identityKey r ∈ seen
    · rw [dedupByKeyAux, if_pos h]
      rcases List.mem_cons.1 ha with rfl | ha'
      · exact Or.inl h
      · exact ih ha'
    · rw [dedupByKeyAux, if_neg h]
      rcases List.mem_cons.1 ha with rfl | ha'
      · exact Or.inr ⟨a, List.mem_cons_self _ _, rfl⟩
      · rcases @ih (identityKey r :: seen) ha' with hmem | ⟨b, hb, hkb⟩
        · rcases List.mem_cons.1 hmem with he | hmem'
          · exact Or.inr ⟨r, List.mem_cons_self _ _, he.symm⟩
          · exact Or.inl hmem'
        · exact Or.inr ⟨b, List.mem_cons_of_mem _ hb, hkb⟩

theorem sorted_mergeClean (l : List Rec) : List.Sorted recOrd (mergeClean l) :=
  List.sorted_insertionSort recOrd _

theorem pairwiseKey_mergeClean (l : List Rec) :
    (mergeClean l).Pairwise (fun x y => identityKey x ≠ identityKey y) := by
  have hp := pairwiseKey_dedupByKeyAux [] (List.insertionSort dateGe (l.filter mergeValid))
  have hperm := List.perm_insertionSort recOrd
    (dedupByKey (List.insertionSort dateGe (l.filter mergeValid)))
  exact (hperm.pairwise_iff (fun {x y} h he => h he.symm)).2 hp

theorem nodup_mergeClean (l : List Rec) : (mergeClean l).Nodup :=
  (pairwiseKey_mergeClean l).imp (fun h he => h (congrArg identityKey he))

/-- Membership in the merged dataset: exactly the valid input rows that carry
the maximal datestamp among the valid rows of their identity key. -/
theorem mem_mergeClean {l : List Rec} {b : Rec} :
    b ∈ mergeClean l ↔
      mergeValid b = true ∧ b ∈ l ∧
        ∀ a ∈ l, mergeValid a = true → identityKey a = identityKey b →
          strLe a.datestamp b.datestamp := by
  unfold mergeClean dedupByKey
  constructor
  · intro hb
    rw [List.mem_insertionSort] at hb
    have hsorted : List.Sorted dateGe (List.insertionSort dateGe (l.filter mergeValid)) :=
      List.sorted_insertionSort dateGe _
    have hmem : b ∈ List.insertionSort dateGe (l.filter mergeValid) :=
      mem_of_mem_dedupByKeyAux hb
    rw [List.mem_insertionSort, List.mem_filter] at hmem
    refine ⟨hmem.2, hmem.1, ?_⟩
    intro a ha hva hk
    have ha' : a ∈ List.insertionSort dateGe (l.filter mergeValid) := by
      rw [List.mem_insertionSort, List.mem_filter]
      exact ⟨ha, hva⟩
    exact dedupByKeyAux_max hsorted hb a ha' hk
  · rintro ⟨hv, hmem, hmax⟩
    rw [List.mem_insertionSort]
    refine dedupByKeyAux_complete (List.sorted_insertionSort dateGe _) ?_ ?_ (by simp)
    · rw [List.mem_insertionSort, List.mem_filter]
      exact ⟨hmem, hv⟩
    · intro a ha hk
      rw [List.mem_insertionSort, List.mem_filter] at ha
      exact hmax a ha.1 ha.2 hk

theorem mergeValid_of_mem_mergeClean {l : List Rec} {b : Rec} (hb : b ∈ mergeClean l) :
    mergeValid b = true :=
  (mem_mergeClean.1 hb).1

theorem mem_of_mem_mergeClean {l : List Rec} {b : Rec} (hb : b ∈ mergeClean l) :
    b ∈ l :=
  (mem_mergeClean.1 hb).2.1

/-- Every valid input row is represented in the merged dataset by a row with
the same identity key and a datestamp at least as recent. -/
theorem mergeClean_covers {l : List Rec} {a : Rec} (hv : mergeValid a = true)
    (ha : a ∈ l) :
    ∃ c ∈ mergeClean l, identityKey c = identityKey a ∧ strLe a.datestamp c.datestamp := by
  unfold mergeClean dedupByKey
  have hmem : a ∈ List.insertionSort dateGe (l.filter mergeValid) := by
    rw [List.mem_insertionSort, List.mem_filter]
    exact ⟨ha, hv⟩
  rcases @dedupByKeyAux_covers _ [] _ hmem with h | ⟨c, hc, hk⟩
  · simp at h
  · refine ⟨c, ?_, hk, ?_⟩
    · rw [List.mem_insertionSort]
      exact hc
    · exact dedupByKeyAux_max (List.sorted_insertionSort dateGe _) hc a hmem hk.symm

/-- Merged datasets with the same members are equal: the result is sorted by
the (antisymmetric) deterministic order and has no duplicate rows. -/
theorem mergeClean_eq_of_mem_iff {l₁ l₂ : List Rec}
    (h : ∀ b, b ∈ mergeClean l₁ ↔ b ∈ mergeClean l₂) : mergeClean l₁ = mergeClean l₂ :=
  List.eq_of_perm_of_sorted
    ((List.perm_ext_iff_of_nodup (nodup_mergeClean l₁) (nodup_mergeClean l₂)).2 h)
    (sorted_mergeClean l₁) (sorted_mergeClean l₂)

/-- The extraction-loop guard (line 271) and the merge filter (lines 370-372)
accept exactly the same records. -/
theorem mergeValid_eq_isValid (r : Rec) : mergeValid r = isValid r := by
  unfold mergeValid isValid
  by_cases h : r.name = ""
  · rw [h]
    rfl
  · have hb : (r.name != "") = true := by simp [bne_iff_ne, h]
    rw [hb]
    cases h1 : (r.name != "N/A") <;> cases h2 : (pyStrip r.name != "") <;>
      simp [h1, h2]

/-- Unfolding of the extraction-loop validity guard into propositions. -/
theorem isValid_iff (r : Rec) :
    isValid r = true ↔ (r.name ≠ "" ∧ r.name ≠ "N/A" ∧ pyStrip r.name ≠ "") := by
  simp [isValid, Bool.and_eq_true, bne_iff_ne, and_assoc]

/-- At most one row of each identity key survives the merge. -/
theorem mergeClean_key_unique {l : List Rec} {c c' : Rec} (hc : c ∈ mergeClean l)
    (hc' : c' ∈ mergeClean l) (hk : identityKey c' = identityKey c) : c' = c := by
  by_contra hne
  have hsymm : Symmetric (fun x y : Rec => identityKey x ≠ identityKey y) :=
    fun x y h he => h he.symm
  exact (pairwiseKey_mergeClean l).forall hsymm hc' hc hne hk

/-! ### Claims -/

/-- Claim C1: for every pair of records in the combined (existing plus new)
data that share the same identity key, `save_to_csv` retains exactly one row
for that key, carrying the most recent datestamp; the strictly older member
of the pair is dropped. -/
theorem c1_most_recent_wins (existing newData : List Rec) (a b : Rec)
    (hne : newData ≠ [])
    (_ha : a ∈ existing ++ newData) (hb : b ∈ existing ++ newData)
    (_hva : isValid a = true) (hvb : isValid b = true)
    (hkey : identityKey a = identityKey b)
    (hlt : strLt a.datestamp b.datestamp) :
    ∃ out, save_to_csv (some existing) newData = some out ∧
      a ∉ out ∧
      ∃ c ∈ out, identityKey c = identityKey a ∧
        (∀ x ∈ existing ++ newData, isValid x = true →
          identityKey x = identityKey a → strLe x.datestamp c.datestamp) ∧
        ∀ c' ∈ out, identityKey c' = identityKey a → c' = c := by
  have hvb' : mergeValid b = true := (mergeValid_eq_isValid b).trans hvb
  refine ⟨mergeClean (existing ++ newData), ?_, ?_, ?_⟩
  · simp [save_to_csv, save_to_csv_fx, hne]
  · intro hmem
    rcases mem_mergeClean.1 hmem with ⟨_, _, hmax⟩
    have hle : strLe b.datestamp a.datestamp := hmax b hb hvb' hkey.symm
    have h₁ : a.datestamp.data < b.datestamp.data := hlt
    have h₂ : b.datestamp.data ≤ a.datestamp.data := hle
    exact absurd (lt_of_lt_of_le h₁ h₂) (lt_irrefl _)
  · rcases mergeClean_covers hvb' hb with ⟨c, hc, hkc, _⟩
    have hmax_c := (mem_mergeClean.1 hc).2.2
    refine ⟨c, hc, hkc.trans hkey.symm, ?_, ?_⟩
    · intro x hx hvx hkx
      exact hmax_c x hx ((mergeValid_eq_isValid x).trans hvx)
        (hkx.trans (hkc.trans hkey.symm).symm)
    · intro c' hc' hk'
      exact mergeClean_key_unique hc hc' (hk'.trans (hkc.trans hkey.symm).symm)

/-- Witness for C1: the spec's own example, key `("X", "1 St, City")` observed
on 2024-01-01 and 2024-06-01; the June row is the unique survivor. -/
theorem c1_most_recent_wins_witness :
    ∃ out, save_to_csv (some [recJan]) [recJun] = some out ∧
      recJan ∉ out ∧
      ∃ c ∈ out, identityKey c = identityKey recJan ∧
        (∀ x ∈ [recJan] ++ [recJun], isValid x = true →
          identityKey x = identityKey recJan → strLe x.datestamp c.datestamp) ∧
        ∀ c' ∈ out, identityKey c' = identityKey recJan → c' = c :=
  c1_most_recent_wins [recJan] [recJun] recJan recJun (by decide) (by decide)
    (by decide) (by decide) (by decide) (by decide) (by decide)

/-- Counterexample to claim C2 as stated: merging a dataset that contains a
duplicate row with an empty new-record list does not deduplicate it —
`save_to_csv` returns at once and the dataset keeps both copies, so the
result differs from `dedupe(D)` (the merge pipeline applied to `D`). -/
theorem c2_empty_merge_cex :
    save_to_csv (some [recA, recA]) [] = some [recA, recA] ∧
    mergeClean [recA, recA] = [recA] ∧
    save_to_csv (some [recA, recA]) [] ≠ some (mergeClean [recA, recA]) :=
  ⟨rfl, by decide, by decide⟩

/-- Claim C2 (amended): with an empty new-record list `save_to_csv` leaves the
dataset unchanged (it does not dedupe); merging a dataset `D` with itself
twice gives the same result as merging once. -/
theorem c2_merge_idempotent (D : List Rec) :
    save_to_csv (some D) [] = some D ∧
    save_to_csv (save_to_csv (some D) D) D = save_to_csv (some D) D := by
  constructor
  · rfl
  · by_cases hD : D = []
    · subst hD
      rfl
    · have h₁ : save_to_csv (some D) D = some (mergeClean (D ++ D)) := by
        simp [save_to_csv, save_to_csv_fx, hD]
      have h₂ : save_to_csv (some (mergeClean (D ++ D))) D =
          some (mergeClean (mergeClean (D ++ D) ++ D)) := by
        simp [save_to_csv, save_to_csv_fx, hD]
      rw [h₁, h₂]
      congr 1
      apply mergeClean_eq_of_mem_iff
      intro b
      constructor
      · intro hb
        rcases mem_mergeClean.1 hb with ⟨hv, hmem, hmax⟩
        rcases List.mem_append.1 hmem with hM | hD'
        · exact hM
        · rw [mem_mergeClean]
          refine ⟨hv, List.mem_append.2 (Or.inl hD'), ?_⟩
          intro a ha hva hk
          rcases mergeClean_covers hva ha with ⟨c, hc, hkc, hdc⟩
          have hcv : mergeValid c = true := mergeValid_of_mem_mergeClean hc
          have hcb : strLe c.datestamp b.datestamp :=
            hmax c (List.mem_append.2 (Or.inl hc)) hcv (hkc.trans hk)
          exact strLe_trans hdc hcb
      · intro hb
        rcases mem_mergeClean.1 hb with ⟨hv, hmem, hmax⟩
        rw [mem_mergeClean]
        refine ⟨hv, List.mem_append.2 (Or.inl hb), ?_⟩
        intro a ha hva hk
        rcases List.mem_append.1 ha with hM | hD'
        · exact hmax a (mem_of_mem_mergeClean hM) hva hk
        · exact hmax a (List.mem_append.2 (Or.inl hD')) hva hk

/-- Counterexample to claim C3 as stated: the persisted columns are
`datestamp, name, address` — there is no `city` column — and an address with
a comma-separated city part is stored verbatim, not split. -/
theorem c3_city_column_cex :
    csvColumns ≠ ["datestamp", "name", "address", "city"] ∧
    save_to_csv none [recPark] = some [recPark] ∧
    (mergeClean [recPark]).map Rec.address = ["12 Park Ave, Bangalore"] :=
  ⟨by decide, by decide, by decide⟩

/-- Claim C3 (amended): persisted records carry only `datestamp`, `name` and
`address`; no city is derived (rows pass through the merge unmodified, the
address keeping any comma-separated city suffix), and the output columns are
`datestamp, name, address` in that order. -/
theorem c3_no_city_column (l : List Rec) (r : Rec) (hr : r ∈ mergeClean l) :
    csvColumns = ["datestamp", "name", "address"] ∧ r ∈ l :=
  ⟨rfl, mem_of_mem_mergeClean hr⟩

/-- Witness for the amended C3 at the claim's own example record. -/
theorem c3_no_city_column_witness :
    csvColumns = ["datestamp", "name", "address"] ∧ recPark ∈ [recPark] :=
  c3_no_city_column [recPark] recPark (by decide)

/-- Claim C4: a record is valid iff its name is neither empty nor `'N/A'` and
does not strip to the empty string; the extraction-loop guard and the merge
filter agree, and on the example `[A, N/A, whitespace]` only `A` survives
either filter and the save. -/
theorem c4_validity_filter :
    (∀ r : Rec, isValid r = true ↔
      (r.name ≠ "" ∧ r.name ≠ "N/A" ∧ pyStrip r.name ≠ "")) ∧
    (∀ r : Rec, mergeValid r = isValid r) ∧
    [recA, recNA, recWS].filter (fun r => isValid r) = [recA] ∧
    [recA, recNA, recWS].filter (fun r => mergeValid r) = [recA] ∧
    save_to_csv none [recA, recNA, recWS] = some [recA] :=
  ⟨isValid_iff, mergeValid_eq_isValid, by decide, by decide, by decide⟩

/-- Counterexample to claim C7 as stated: a `KeyboardInterrupt` during
extraction reaches `main`'s `except KeyboardInterrupt: pass`, so the
merge-persist step is skipped — the collected records are discarded and the
dataset is left as it was — even though the driver is released. -/
theorem c7_interrupt_skips_save_cex :
    (mainRun none [recA] RunEvent.interrupted).1 = none ∧
    save_to_csv none [recA] = some [recA] ∧
    (mainRun none [recA] RunEvent.interrupted).1 ≠ save_to_csv none [recA] ∧
    (mainRun none [recA] RunEvent.interrupted).2 = false :=
  ⟨rfl, by decide, by decide, rfl⟩

/-- Claim C7 (amended): the driver is released on every termination path, but
the merge-persist step runs only when scraping completes normally; on
interrupt or any other exception the dataset is left unchanged and the
collected records are discarded. -/
theorem c7_save_only_on_completion (fs : Option (List Rec)) (c : List Rec)
    (ev : RunEvent) :
    (mainRun fs c ev).2 = false ∧
    (ev ≠ RunEvent.completed → (mainRun fs c ev).1 = fs) ∧
    (ev = RunEvent.completed → (mainRun fs c ev).1 = save_to_csv fs c) := by
  cases ev
  · exact ⟨rfl, fun h => absurd rfl h, fun _ => rfl⟩
  · exact ⟨rfl, fun _ => rfl, fun h => by cases h⟩
  · exact ⟨rfl, fun _ => rfl, fun h => by cases h⟩

/-- Witness for the amended C7: an interrupted run releases the driver and
leaves a missing dataset missing even though a record had been collected. -/
theorem c7_save_only_on_completion_witness :
    (mainRun none [recA] RunEvent.interrupted).2 = false ∧
    (mainRun none [recA] RunEvent.interrupted).1 = none :=
  ⟨(c7_save_only_on_completion none [recA] RunEvent.interrupted).1,
   (c7_save_only_on_completion none [recA] RunEvent.interrupted).2.1 (by decide)⟩

/-- Claim C9: after every save with a non-empty record list the written
dataset has pairwise distinct `(name, address)` keys, every row's name is
non-empty, not whitespace-only and not `'N/A'`, and the columns are exactly
`datestamp, name, address` in order. -/
theorem c9_saved_dataset_invariant (existing : Option (List Rec)) (data : List Rec)
    (hne : data ≠ []) :
    ∃ out, save_to_csv existing data = some out ∧
      out.Pairwise (fun x y => identityKey x ≠ identityKey y) ∧
      (∀ r ∈ out, r.name ≠ "" ∧ pyStrip r.name ≠ "" ∧ r.name ≠ "N/A") ∧
      csvColumns = ["datestamp", "name", "address"] := by
  refine ⟨mergeClean (existing.getD [] ++ data), ?_, pairwiseKey_mergeClean _, ?_, rfl⟩
  · simp [save_to_csv, save_to_csv_fx, hne]
  · intro r hr
    have hv := mergeValid_of_mem_mergeClean hr
    rw [mergeValid_eq_isValid, isValid_iff] at hv
    exact ⟨hv.1, hv.2.2, hv.2.1⟩

/-- Witness for C9 at a one-record save into a missing dataset. -/
theorem c9_saved_dataset_invariant_witness :
    ∃ out, save_to_csv none [recA] = some out ∧
      out.Pairwise (fun x y => identityKey x ≠ identityKey y) ∧
      (∀ r ∈ out, r.name ≠ "" ∧ pyStrip r.name ≠ "" ∧ r.name ≠ "N/A") ∧
      csvColumns = ["datestamp", "name", "address"] :=
  c9_saved_dataset_invariant none [recA] (by decide)

/-- Claim C10: with an empty new-record list both save functions return
immediately: no dataset read or write happens and the prior dataset —
duplicates, invalid rows and all — is left exactly as it was. -/
theorem c10_empty_save_frame (existing : Option (List Rec)) :
    save_to_csv_fx existing [] = ⟨existing, 0, 0⟩ ∧
    save_to_json_fx existing [] = ⟨existing, 0, 0⟩ :=
  ⟨rfl, rfl⟩

/-- Counterexample to claim C5 as stated: against a driver revealing ten new
valid nodes per step, `scrape_single_batch` with `batch_size = 25`,
`max_scrolls = 10` and the default `min_scrolls = 5` neither returns 25
records nor stops after 3 steps — the append step has no target-count cap. -/
theorem c5_target_cap_cex :
    ¬ ((scrape_single_batch tenPerStep 25 10 5).1.length = 25 ∧
       (scrape_single_batch tenPerStep 25 10 5).2 = 3) := by decide

/-- Claim C5 (amended): the loop appends every newly revealed valid record
with no target-count cap; the target acts only as a stop threshold checked
after the minimum-scroll phase, so the ten-per-step driver yields 60 records
(overshooting the target of 25) in 5 scroll steps. -/
theorem c5_no_append_cap :
    (scrape_single_batch tenPerStep 25 10 5).1.length = 60 ∧
    (scrape_single_batch tenPerStep 25 10 5).2 = 5 ∧
    25 < (scrape_single_batch tenPerStep 25 10 5).1.length := by decide

/-- On a page whose height never grows, the loop ignores the failed growth
checks throughout the minimum-scroll phase and performs exactly
`min min_scrolls max_scrolls` scroll attempts, whatever the target count. -/
theorem collectLoop_neverGrows {d : PageDriver} (hg : ∀ n, d.grows n = false)
    (batch_size min_scrolls max_scrolls : Nat) :
    ∀ (fuel : Nat) (batch : List Rec) (prev sc : Nat),
      sc ≤ min min_scrolls max_scrolls → max_scrolls ≤ sc + fuel →
      (collectLoop d batch_size min_scrolls max_scrolls fuel batch prev sc).2 =
        min min_scrolls max_scrolls := by
  intro fuel
  induction fuel with
  | zero =>
    intro batch prev sc h₁ h₂
    simp only [collectLoop]
    omega
  | succ fuel ih =>
    intro batch prev sc h₁ h₂
    simp only [collectLoop]
    split_ifs with hsc hmin hbs hcur
    · exact ih _ _ _ (by omega) (by omega)
    · dsimp only
      omega
    · dsimp only
      omega
    · exact absurd (Or.inr (hg sc)) hcur
    · dsimp only
      omega

/-- Counterexample to claim C6 as stated: with a never-growing page and the
default scroll bounds, the loop performs five scroll attempts — far more than
"one step after the first failed growth check" — even with a target count of
zero (so the target-count condition is not checked first either). -/
theorem c6_convergence_cex :
    (scrape_single_batch neverGrow 0 5 5).2 = 5 ∧
    ¬ ((scrape_single_batch neverGrow 0 5 5).2 ≤ 2) := by decide

/-- Claim C6 (amended): when the page height never grows the loop still
terminates, but only after the mandatory minimum-scroll phase: it performs
exactly `min min_scrolls max_scrolls` scroll attempts regardless of the
target count (growth results are ignored while `scroll_count < min_scrolls`;
the actual check order is maxSteps guard, minimum-scroll phase, target count,
then no-new-nodes-or-no-growth). -/
theorem c6_never_grow_steps (d : PageDriver) (batch_size max_scrolls min_scrolls : Nat)
    (hg : ∀ n, d.grows n = false) :
    (scrape_single_batch d batch_size max_scrolls min_scrolls).2 =
      min min_scrolls max_scrolls := by
  unfold scrape_single_batch
  exact collectLoop_neverGrows hg batch_size min_scrolls max_scrolls max_scrolls [] 0 0
    (by omega) (by omega)

/-- Witness for the amended C6 at the concrete never-growing driver with the
default bounds. -/
theorem c6_never_grow_steps_witness :
    (scrape_single_batch neverGrow 50 5 5).2 = min 5 5 :=
  c6_never_grow_steps neverGrow 50 5 5 (fun _ => rfl)

/-! ### Helper lemmas for the filename pipeline -/

theorem splitSlash_ne_nil : ∀ l : List Char, splitSlash l ≠ []
  | [] => by simp [splitSlash]
  | c :: r => by
    by_cases h : c = '/'
    · simp [splitSlash, h]
    · simp only [splitSlash, if_neg h]
      cases hs : splitSlash r with
      | nil => simp
      | cons s ss => simp

theorem splitSlash_append_slash : ∀ l : List Char,
    splitSlash (l ++ ['/']) = splitSlash l ++ [[]]
  | [] => by simp [splitSlash]
  | c :: r => by
    by_cases h : c = '/'
    · simp [splitSlash, h, splitSlash_append_slash r]
    · have ih := splitSlash_append_slash r
      cases hs : splitSlash r with
      | nil => exact absurd hs (splitSlash_ne_nil r)
      | cons s ss =>
        simp only [List.cons_append, splitSlash, List.append_eq, if_neg h, ih, hs]

theorem keepSeg_nil : keepSeg [] = false := rfl

theorem filter_keepSeg_append_slash (l : List Char) :
    (splitSlash (l ++ ['/'])).filter (fun p => keepSeg p) =
      (splitSlash l).filter (fun p => keepSeg p) := by
  rw [splitSlash_append_slash, List.filter_append]
  simp [keepSeg]

theorem filter_keepSeg_append_replicate (n : Nat) (l : List Char) :
    (splitSlash (l ++ List.replicate n '/')).filter (fun p => keepSeg p) =
      (splitSlash l).filter (fun p => keepSeg p) := by
  induction n generalizing l with
  | zero => simp
  | succ n ih =>
    rw [List.replicate_succ', ← List.append_assoc, filter_keepSeg_append_slash]
    exact ih l

theorem stripEnd_char_decomp (x : Char) : ∀ l : List Char,
    ∃ n, l = stripEndWhile (fun c => c = x) l ++ List.replicate n x
  | [] => ⟨0, rfl⟩
  | c :: r => by
    obtain ⟨n, hn⟩ := stripEnd_char_decomp x r
    cases hS : stripEndWhile (fun c => c = x) r with
    | nil =>
      rw [hS] at hn
      simp only [List.nil_append] at hn
      by_cases hc : c = x
      · have hstrip : stripEndWhile (fun c => c = x) (c :: r) = [] := by
          simp only [stripEndWhile, hS]
          simp [hc]
        refine ⟨n + 1, ?_⟩
        rw [hstrip]
        simp [hn, hc, List.replicate_succ]
      · have hstrip : stripEndWhile (fun c => c = x) (c :: r) = [c] := by
          simp only [stripEndWhile, hS]
          simp [hc]
        refine ⟨n, ?_⟩
        rw [hstrip]
        simp [hn]
    | cons a s =>
      rw [hS] at hn
      have hstrip : stripEndWhile (fun c => c = x) (c :: r) = c :: a :: s := by
        simp only [stripEndWhile, hS]
      refine ⟨n, ?_⟩
      rw [hstrip]
      simp [hn]

theorem filter_keepSeg_stripEnd (l : List Char) :
    (splitSlash (stripEndWhile (fun c => c = '/') l)).filter (fun p => keepSeg p) =
      (splitSlash l).filter (fun p => keepSeg p) := by
  obtain ⟨n, hn⟩ := stripEnd_char_decomp '/' l
  conv_rhs => rw [hn]
  rw [filter_keepSeg_append_replicate]

theorem filter_keepSeg_dropWhile (l : List Char) :
    (splitSlash (l.dropWhile (fun c => c = '/'))).filter (fun p => keepSeg p) =
      (splitSlash l).filter (fun p => keepSeg p) := by
  induction l with
  | nil => rfl
  | cons c r ih =>
    by_cases h : c = '/'
    · subst h
      have hdw : List.dropWhile (fun c => decide (c = '/')) ('/' :: r) =
          List.dropWhile (fun c => decide (c = '/')) r := rfl
      rw [hdw, ih]
      simp [splitSlash, keepSeg]
    · rw [List.dropWhile_cons]
      simp [h]

theorem filter_keepSeg_pyStripChar (l : List Char) :
    (splitSlash (pyStripChar '/' l)).filter (fun p => keepSeg p) =
      (splitSlash l).filter (fun p => keepSeg p) := by
  unfold pyStripChar pyStripWith
  rw [filter_keepSeg_stripEnd, filter_keepSeg_dropWhile]

/-- Claim C8: for every URL the derived dataset identifier follows the
specified pipeline — split the path on `'/'`, drop empty and `nct-*`
segments, join with `'-'`, replace characters outside `[A-Za-z0-9-]` with
`'-'`, collapse repeated `'-'`, trim outer `'-'`, with fallback
`'justdial_data'` when no segment remains — and the example URL yields
`Bangalore-Pg-Accommodations`.  (The code strips outer slashes before
splitting; the specification instead drops the resulting empty segments —
the two pipelines agree on every input.) -/
theorem c8_filename_derivation :
    (∀ url : String, generate_filename_from_url url = specIdentifier url) ∧
    generate_filename_from_url "https://site.com/Bangalore/Pg-Accommodations/nct-10934649" =
      "Bangalore-Pg-Accommodations" := by
  refine ⟨?_, by decide⟩
  intro url
  simp only [generate_filename_from_url, specIdentifier, filter_keepSeg_pyStripChar]
